import Mathlib

/-!
Verification of the Vigenère cipher engine (`src/index.js`).

The engine is a single constructor function `Vigenere(options)` that resolves a
character universe from `options.type`, coerces `options.strict`, validates the
custom alphabet, and exposes `encode`/`decode`, both implemented by
`encryptOrDecrypt`.  We embed the construction layer over a small model of the
JavaScript values that can appear in the options record, and the transform layer
over lists of characters (a JavaScript string is its list of characters).
-/

namespace Vigenere

/-- The JavaScript values relevant to the `options` record: `undefined`, `null`,
booleans, strings, and arrays of strings (the test suite passes `["abc"]` as
`characters`). -/
inductive JSValue where
  | undefined : JSValue
  | null : JSValue
  | bool : Bool → JSValue
  | str : String → JSValue
  | strArray : List String → JSValue
deriving DecidableEq

/-- JavaScript truthiness for the values of `JSValue`: `undefined`, `null`,
`false` and the empty string are falsy; every array is truthy. -/
def JSValue.truthy : JSValue → Bool
  | .undefined => false
  | .null => false
  | .bool b => b
  | .str s => !s.isEmpty
  | .strArray _ => true

/-- Truthiness of the `.length` property, as read by `!options.characters.length`
(src/index.js line 35).  Strings and arrays report their length; this branch is
only reached on truthy values, so the `undefined`/`null`/`bool` rows are
unreachable there. -/
def JSValue.lengthTruthy : JSValue → Bool
  | .str s => !s.isEmpty
  | .strArray xs => !xs.isEmpty
  | _ => false

/-- The built-in alphabets of the `characterTypes` table (src/index.js lines
13-23), as strings. -/
def alphanumericStr : String :=
  "abcdefghijklmnopqrstuvwxyzABCDEFGHIJKLMNOPQRSTUVWXYZ0123456789"

def numbersStr : String := "0123456789"

def lowercaseStr : String := "abcdefghijklmnopqrstuvwxyz"

def uppercaseStr : String := "ABCDEFGHIJKLMNOPQRSTUVWXYZ"

def symbolsStr : String := "!@#$%^&*()_+-=[]\x7b\x7d|;':\",./<>?"

def asciiStr : String :=
  "abcdefghijklmnopqrstuvwxyzABCDEFGHIJKLMNOPQRSTUVWXYZ0123456789!@#$%^&*()_+-=[]\x7b\x7d|;':\",./<>? "

def base64Str : String :=
  "ABCDEFGHIJKLMNOPQRSTUVWXYZabcdefghijklmnopqrstuvwxyz0123456789+/="

/-- The keys of the `characterTypes` object literal in `src/index.js`, in its
insertion order (this is the order `Object.keys` reports and the order joined
into the invalid-type error message). -/
def characterTypesKeys : List String :=
  ["alphanumeric", "numbers", "lowercase", "uppercase", "symbols", "ascii", "base64", "custom"]

/-- Property read `characterTypes[key]`.  The `custom` entry holds the value of
`options.characters` captured when the object literal is built; any other
unknown key reads as `undefined`. -/
def characterTypesGet (characters : JSValue) (key : String) : JSValue :=
  if key = "alphanumeric" then .str alphanumericStr
  else if key = "numbers" then .str numbersStr
  else if key = "lowercase" then .str lowercaseStr
  else if key = "uppercase" then .str uppercaseStr
  else if key = "symbols" then .str symbolsStr
  else if key = "ascii" then .str asciiStr
  else if key = "base64" then .str base64Str
  else if key = "custom" then characters
  else .undefined

/-- The `options` record passed to the constructor.  `type` and `secret` are
either absent (`none`) or strings; `strict` and `characters` may be any
JavaScript value. -/
structure Options where
  type : Option String
  strict : JSValue
  characters : JSValue
  secret : Option String
deriving DecidableEq

/-- Truthiness of `options.type` (absent or the empty string are falsy). -/
def optStrTruthy : Option String → Bool
  | none => false
  | some s => !s.isEmpty

/-- The message of the `TypeError` thrown on an unrecognized type
(src/index.js line 28): the `characterTypes` keys joined in insertion order. -/
def invalidTypeMessage : String :=
  "Invalid character type. Available options are: "
    ++ String.intercalate ", " characterTypesKeys ++ ";"

/-- The constructor body of `Vigenere(options)` up to the point where `encode`
and `decode` are installed (src/index.js lines 11-39).  The returned record is
the caller's `options` object after the constructor's in-place writes; a thrown
`TypeError` is the `error` case, carrying the message. -/
def construct (options : Options) : Except String Options :=
  let options1 : Options := { options with strict := JSValue.bool options.strict.truthy }
  let options2 : Options :=
    if optStrTruthy options1.type then options1 else { options1 with type := some "base64" }
  let ty : String := options2.type.getD ""
  if !(characterTypesGet options2.characters ty).truthy then
    .error invalidTypeMessage
  else if ty = "custom" && !options2.characters.truthy then
    .error "Characters must be specified when using custom character type."
  else if ty = "custom" && !options2.characters.lengthTruthy then
    .error "Custom characters must be a non-empty string."
  else
    .ok options2

/-- The character universe the engine will use after a successful construction:
the string stored at `characterTypes[options.type]`, as a list of characters.
`none` when construction fails or the entry is not a string. -/
def resolvedUniverse (options : Options) : Option (List Char) :=
  match construct options with
  | .error _ => none
  | .ok options2 =>
    match characterTypesGet options2.characters (options2.type.getD "") with
    | .str s => some s.toList
    | _ => none

/-- JavaScript `String.prototype.indexOf` restricted to single characters:
the first-occurrence index, or `-1` when the character does not occur. -/
def jsIndexOf (l : List Char) (c : Char) : Int :=
  if c ∈ l then (l.indexOf c : Int) else -1

/-- The `operation` argument of `encryptOrDecrypt`. -/
inductive Operation where
  | encrypt : Operation
  | decrypt : Operation
deriving DecidableEq

/-- The `TypeError` message of `verifySecret` for an out-of-universe secret
character (src/index.js line 48). -/
def illegalSecretMessage (charMap : List Char) (c : Char) : String :=
  "Secret characters must contains only values from '" ++ String.mk charMap
    ++ "'. ['" ++ String.mk [c] ++ "'] not allowed!"

/-- The `TypeError` message of `verifyMessage` for an out-of-universe message
character in strict mode (src/index.js line 60). -/
def illegalMessageMessage (charMap : List Char) (c : Char) : String :=
  "Message characters must contains only values from '" ++ String.mk charMap
    ++ "'. ['" ++ String.mk [c] ++ "'] not allowed in strict mode!"

/-- `verifySecret(secret)` (src/index.js lines 42-52).  An empty string is
falsy, so it hits the `!secret` check; the `.every` callback throws on the
first character whose `indexOf` in the universe is `-1`. -/
def verifySecret (charMap secret : List Char) : Except String Unit :=
  if secret.isEmpty then .error "Secret must be specified."
  else
    match secret.find? (fun c => jsIndexOf charMap c == -1) with
    | some c => .error (illegalSecretMessage charMap c)
    | none => .ok ()

/-- `verifyMessage(message, strict)` (src/index.js lines 54-64): the character
scan only runs when `strict` is true. -/
def verifyMessage (charMap message : List Char) (strict : Bool) : Except String Unit :=
  if message.isEmpty then .error "Message must be specified."
  else if !strict then .ok ()
  else
    match message.find? (fun c => jsIndexOf charMap c == -1) with
    | some c => .error (illegalMessageMessage charMap c)
    | none => .ok ()

/-- One iteration of the transform loop (src/index.js lines 79-98) at message
index `i` with message character `messageLetter`.  JavaScript `%` agrees with
`Int.emod` here because every dividend that can occur after validation is
nonnegative (`x` and `y` are real indices once the letters are known to be in
the universe). -/
def transformChar (charMap secret : List Char) (operation : Operation) (i : Nat)
    (messageLetter : Char) : Char :=
  if jsIndexOf charMap messageLetter == -1 then messageLetter
  else
    let secretLetter : Char := secret.getD (i % secret.length) default
    let x : Int := jsIndexOf charMap secretLetter
    let y : Int := jsIndexOf charMap messageLetter
    let L : Int := (charMap.length : Int)
    match operation with
    | .encrypt => charMap.getD ((x + y) % L).toNat default
    | .decrypt => charMap.getD ((y - x + L) % L).toNat default

/-- `encryptOrDecrypt(message, secret, operation)` (src/index.js lines 73-101):
validate the secret, then the message, then accumulate one output character per
message index. -/
def encryptOrDecrypt (charMap : List Char) (strict : Bool) (message secret : List Char)
    (operation : Operation) : Except String (List Char) :=
  match verifySecret charMap secret with
  | .error e => .error e
  | .ok _ =>
    match verifyMessage charMap message strict with
    | .error e => .error e
    | .ok _ =>
      .ok ((List.range message.length).map fun i =>
        transformChar charMap secret operation i (message.getD i default))

/-- `encode(message, secret)` with the secret already resolved. -/
def encode (charMap : List Char) (strict : Bool) (message secret : List Char) :
    Except String (List Char) :=
  encryptOrDecrypt charMap strict message secret .encrypt

/-- `decode(message, secret)` with the secret already resolved. -/
def decode (charMap : List Char) (strict : Bool) (message secret : List Char) :
    Except String (List Char) :=
  encryptOrDecrypt charMap strict message secret .decrypt

/-- The index emitted for an in-universe message character, as the spec states
it: `(x + y) mod L` when encoding and `(y - x + L) mod L` when decoding, where
the decode form is written `(y + L - x) mod L` so that the subtraction stays in
`Nat` (`x < L`, so the two agree over the integers). -/
def shiftIndex (L : Nat) (operation : Operation) (x y : Nat) : Nat :=
  match operation with
  | .encrypt => (x + y) % L
  | .decrypt => (y + L - x) % L

/-! ### Basic facts about the embedded primitives -/

lemma jsIndexOf_beq_neg_one_iff (l : List Char) (c : Char) :
    ((jsIndexOf l c == -1) = true) ↔ c ∉ l := by
  unfold jsIndexOf
  split
  next h =>
    simp only [beq_iff_eq]
    constructor
    · intro habs
      exact absurd habs (by omega)
    · intro hc
      exact absurd h hc
  next h =>
    simpa using h

lemma jsIndexOf_of_mem {l : List Char} {c : Char} (h : c ∈ l) :
    jsIndexOf l c = (l.indexOf c : Int) := by
  simp [jsIndexOf, h]

lemma verifySecret_ok (u secret : List Char) (hs : secret ≠ [])
    (hsu : ∀ c ∈ secret, c ∈ u) : verifySecret u secret = .ok () := by
  have hfind : secret.find? (fun c => jsIndexOf u c == -1) = none :=
    List.find?_eq_none.mpr fun x hx =>
      fun hbad => (jsIndexOf_beq_neg_one_iff u x).mp hbad (hsu x hx)
  unfold verifySecret
  rw [if_neg (by simpa [List.isEmpty_iff] using hs), hfind]

lemma verifyMessage_ok (u message : List Char) (strict : Bool) (hm : message ≠ [])
    (hstrict : strict = true → ∀ c ∈ message, c ∈ u) :
    verifyMessage u message strict = .ok () := by
  unfold verifyMessage
  rw [if_neg (by simpa [List.isEmpty_iff] using hm)]
  cases strict with
  | false => rfl
  | true =>
    have hfind : message.find? (fun c => jsIndexOf u c == -1) = none :=
      List.find?_eq_none.mpr fun x hx =>
        fun hbad => (jsIndexOf_beq_neg_one_iff u x).mp hbad (hstrict rfl x hx)
    simp [hfind]

lemma encryptOrDecrypt_ok (u : List Char) (strict : Bool) (message secret : List Char)
    (op : Operation) (hs : secret ≠ []) (hsu : ∀ c ∈ secret, c ∈ u) (hm : message ≠ [])
    (hstrict : strict = true → ∀ c ∈ message, c ∈ u) :
    encryptOrDecrypt u strict message secret op =
      .ok ((List.range message.length).map fun i =>
        transformChar u secret op i (message.getD i default)) := by
  unfold encryptOrDecrypt
  rw [verifySecret_ok u secret hs hsu, verifyMessage_ok u message strict hm hstrict]

lemma getD_map_range {α : Type} (n i : Nat) (h : i < n) (f : Nat → α) (d : α) :
    (((List.range n).map f).getD i d) = f i := by
  rw [List.getD_eq_getElem?_getD, List.getElem?_eq_getElem (by simpa using h)]
  simp

/-- A character of the universe that the secret letter at position `i` denotes,
once the secret is valid: it is a member of the universe. -/
lemma secretLetter_mem (u secret : List Char) (i : Nat) (hs : secret ≠ [])
    (hsu : ∀ c ∈ secret, c ∈ u) : secret.getD (i % secret.length) default ∈ u := by
  have hlen : 0 < secret.length := List.length_pos.mpr hs
  have hlt : i % secret.length < secret.length := Nat.mod_lt _ hlen
  have : secret.getD (i % secret.length) default = secret[i % secret.length] := by
    rw [List.getD_eq_getElem?_getD, List.getElem?_eq_getElem hlt]
    rfl
  rw [this]
  exact hsu _ (List.getElem_mem hlt)

/-- The transform leaves a character outside the universe unchanged. -/
lemma transformChar_of_not_mem (u secret : List Char) (op : Operation) (i : Nat)
    {m : Char} (hm : m ∉ u) : transformChar u secret op i m = m := by
  unfold transformChar
  rw [if_pos ((jsIndexOf_beq_neg_one_iff u m).mpr hm)]

/-- For an in-universe character and a valid secret, the transform emits the
universe symbol at the index the spec states (`shiftIndex`), for either
operation. -/
lemma transformChar_of_mem (u secret : List Char) (op : Operation) (i : Nat)
    {m : Char} (hm : m ∈ u) (hs : secret ≠ []) (hsu : ∀ c ∈ secret, c ∈ u) :
    transformChar u secret op i m =
      u.getD (shiftIndex u.length op
        (u.indexOf (secret.getD (i % secret.length) default)) (u.indexOf m)) default := by
  have hk : secret.getD (i % secret.length) default ∈ u := secretLetter_mem u secret i hs hsu
  have hx : u.indexOf (secret.getD (i % secret.length) default) < u.length :=
    List.indexOf_lt_length.mpr hk
  have hy : u.indexOf m < u.length := List.indexOf_lt_length.mpr hm
  have hcond : (jsIndexOf u m == -1) = false :=
    Bool.eq_false_iff.mpr fun hbad => (jsIndexOf_beq_neg_one_iff u m).mp hbad hm
  cases op with
  | encrypt =>
    have hcast : (jsIndexOf u (secret.getD (i % secret.length) default) + jsIndexOf u m)
        % (u.length : Int) =
        (((u.indexOf (secret.getD (i % secret.length) default) + u.indexOf m)
          % u.length : Nat) : Int) := by
      rw [jsIndexOf_of_mem hk, jsIndexOf_of_mem hm]
      push_cast
      ring_nf
    simp only [transformChar, hcond, Bool.false_eq_true, if_false, shiftIndex, hcast,
      Int.toNat_natCast]
  | decrypt =>
    have hcast : (jsIndexOf u m - jsIndexOf u (secret.getD (i % secret.length) default)
        + (u.length : Int)) % (u.length : Int) =
        (((u.indexOf m + u.length - u.indexOf (secret.getD (i % secret.length) default))
          % u.length : Nat) : Int) := by
      rw [jsIndexOf_of_mem hk, jsIndexOf_of_mem hm]
      have harg : (u.indexOf m : Int) - (u.indexOf (secret.getD (i % secret.length) default) : Int)
          + (u.length : Int) =
          ((u.indexOf m + u.length - u.indexOf (secret.getD (i % secret.length) default) : Nat) :
            Int) := by
        omega
      rw [harg]
      push_cast
      ring_nf
    simp only [transformChar, hcond, Bool.false_eq_true, if_false, shiftIndex, hcast,
      Int.toNat_natCast]

/-- The emitted index is a real index of the universe. -/
lemma shiftIndex_lt (L : Nat) (op : Operation) (x y : Nat) (hL : 0 < L) :
    shiftIndex L op x y < L := by
  cases op <;> exact Nat.mod_lt _ hL

/-- The transform of an in-universe character lands in the universe. -/
lemma transformChar_mem_of_mem (u secret : List Char) (op : Operation) (i : Nat)
    {m : Char} (hm : m ∈ u) (hs : secret ≠ []) (hsu : ∀ c ∈ secret, c ∈ u) :
    transformChar u secret op i m ∈ u := by
  rw [transformChar_of_mem u secret op i hm hs hsu]
  have hL : 0 < u.length := List.length_pos.mpr (List.ne_nil_of_mem hm)
  have hlt : shiftIndex u.length op
      (u.indexOf (secret.getD (i % secret.length) default)) (u.indexOf m) < u.length :=
    shiftIndex_lt u.length op _ _ hL
  rw [List.getD_eq_getElem?_getD, List.getElem?_eq_getElem hlt]
  simp [List.getElem_mem hlt]

/-- In a duplicate-free universe, decoding undoes encoding character by
character: the loop body at the same index, with the same secret, is its own
inverse. -/
lemma transformChar_decrypt_encrypt (u secret : List Char) (i : Nat)
    (hnd : u.Nodup) (hs : secret ≠ []) (hsu : ∀ c ∈ secret, c ∈ u) (m : Char) :
    transformChar u secret .decrypt i (transformChar u secret .encrypt i m) = m := by
  by_cases hm : m ∈ u
  · have hL : 0 < u.length := List.length_pos.mpr (List.ne_nil_of_mem hm)
    have hx : u.indexOf (secret.getD (i % secret.length) default) < u.length :=
      List.indexOf_lt_length.mpr (secretLetter_mem u secret i hs hsu)
    have hy : u.indexOf m < u.length := List.indexOf_lt_length.mpr hm
    set x := u.indexOf (secret.getD (i % secret.length) default) with hxdef
    set y := u.indexOf m with hydef
    have he : shiftIndex u.length .encrypt x y < u.length := shiftIndex_lt _ _ _ _ hL
    rw [transformChar_of_mem u secret .encrypt i hm hs hsu]
    have hgetD : u.getD (shiftIndex u.length .encrypt x y) default =
        u[shiftIndex u.length .encrypt x y] := by
      rw [List.getD_eq_getElem?_getD, List.getElem?_eq_getElem he]
      rfl
    rw [← hxdef, ← hydef, hgetD]
    have hmem2 : u[shiftIndex u.length .encrypt x y] ∈ u := List.getElem_mem he
    rw [transformChar_of_mem u secret .decrypt i hmem2 hs hsu, ← hxdef,
      List.indexOf_getElem hnd _ he]
    have harith : shiftIndex u.length .decrypt x (shiftIndex u.length .encrypt x y) = y := by
      simp only [shiftIndex]
      have h1 : (x + y) % u.length + u.length - x = (x + y) % u.length + (u.length - x) := by
        omega
      have h3 : x + y + (u.length - x) = y + u.length := by omega
      calc ((x + y) % u.length + u.length - x) % u.length
          = ((x + y) % u.length + (u.length - x)) % u.length := by rw [h1]
        _ = (x + y + (u.length - x)) % u.length := Nat.mod_add_mod _ _ _
        _ = (y + u.length) % u.length := by rw [h3]
        _ = y % u.length := Nat.add_mod_right y u.length
        _ = y := Nat.mod_eq_of_lt hy
    rw [harith, List.getD_eq_getElem?_getD, List.getElem?_eq_getElem hy]
    simp [hydef, List.getElem_indexOf hy]
  · rw [transformChar_of_not_mem u secret .encrypt i hm,
      transformChar_of_not_mem u secret .decrypt i hm]

/-- Reading every position of a list back off by index reproduces the list. -/
lemma map_range_getD {α : Type} (l : List α) (d : α) :
    ((List.range l.length).map fun i => l.getD i d) = l := by
  apply List.ext_getElem
  · simp
  · intro i h1 h2
    have h3 : i < l.length := h2
    rw [List.getElem_map, List.getElem_range, List.getD_eq_getElem?_getD,
      List.getElem?_eq_getElem h3]
    rfl

/-- `find?` returns the entry at the first index whose entry satisfies the
predicate when every earlier entry fails it. -/
lemma find?_eq_getD_of_first {α : Type} [Inhabited α] {p : α → Bool} :
    ∀ (l : List α) (i : Nat), i < l.length → p (l.getD i default) = true →
      (∀ j, j < i → p (l.getD j default) = false) →
      l.find? p = some (l.getD i default)
  | [], i, hi, _, _ => absurd hi (by simp)
  | a :: t, 0, _, hp, _ => by
    rw [List.getD_cons_zero] at hp ⊢
    exact List.find?_cons_of_pos t hp
  | a :: t, i + 1, hi, hp, hfst => by
    have ha : p a = false := by
      have := hfst 0 (Nat.succ_pos i)
      rwa [List.getD_cons_zero] at this
    rw [List.getD_cons_succ] at hp ⊢
    rw [List.find?_cons_of_neg t (by simp [ha])]
    exact find?_eq_getD_of_first t i (by simpa using hi) hp fun j hj => by
      have := hfst (j + 1) (by omega)
      rwa [List.getD_cons_succ] at this

/-! ### Claim theorems -/

/-- C1 (amended): for every configuration whose universe is a resolved alphabet
whose symbols are pairwise distinct, every non-empty secret whose symbols all
belong to the universe, and every non-empty message that is fully within the
universe or processed with `strict = false`, decoding the encoding of the
message with the same secret returns the original message. -/
theorem decode_encode_roundtrip (options : Options) (u : List Char) (strict : Bool)
    (message secret : List Char)
    (_hu : resolvedUniverse options = some u)
    (hnd : u.Nodup)
    (hs : secret ≠ []) (hsu : ∀ c ∈ secret, c ∈ u)
    (hm : message ≠ [])
    (hok : strict = false ∨ ∀ c ∈ message, c ∈ u) :
    (encode u strict message secret).bind
      (fun ciphertext => decode u strict ciphertext secret) = .ok message := by
  have hstrict : strict = true → ∀ c ∈ message, c ∈ u := by
    intro ht
    cases hok with
    | inl h => rw [ht] at h; exact absurd h (by simp)
    | inr h => exact h
  rw [encode, encryptOrDecrypt_ok u strict message secret .encrypt hs hsu hm hstrict]
  set ct := (List.range message.length).map
    (fun i => transformChar u secret .encrypt i (message.getD i default)) with hct
  show decode u strict ct secret = .ok message
  have hctlen : ct.length = message.length := by simp [hct]
  have hctne : ct ≠ [] := by
    intro h0
    rw [h0] at hctlen
    exact hm (List.eq_nil_of_length_eq_zero hctlen.symm)
  have hctmem : strict = true → ∀ c ∈ ct, c ∈ u := by
    intro ht c hc
    rw [hct] at hc
    obtain ⟨i, hi, rfl⟩ := List.mem_map.mp hc
    have hi2 : i < message.length := List.mem_range.mp hi
    have hmem : message.getD i default ∈ message := by
      rw [List.getD_eq_getElem?_getD, List.getElem?_eq_getElem hi2]
      exact List.getElem_mem hi2
    exact transformChar_mem_of_mem u secret .encrypt i (hstrict ht _ hmem) hs hsu
  rw [decode, encryptOrDecrypt_ok u strict ct secret .decrypt hs hsu hctne hctmem]
  congr 1
  rw [hctlen]
  have hpt : ∀ i ∈ List.range message.length,
      transformChar u secret .decrypt i (ct.getD i default) =
      message.getD i default := by
    intro i hi
    have hi2 : i < message.length := List.mem_range.mp hi
    rw [hct, getD_map_range message.length i hi2]
    exact transformChar_decrypt_encrypt u secret i hnd hs hsu _
  rw [List.map_congr_left hpt]
  exact map_range_getD message default

/-- Witness for C1 (amended): over the `numbers` alphabet, message `"5"` with
secret `"1"` encodes to `"6"` and decodes back to `"5"`. -/
theorem decode_encode_roundtrip_witness :
    (encode numbersStr.toList false ['5'] ['1']).bind
      (fun ciphertext => decode numbersStr.toList false ciphertext ['1']) = .ok ['5'] :=
  decode_encode_roundtrip ⟨some "numbers", .undefined, .undefined, none⟩ numbersStr.toList
    false ['5'] ['1'] rfl (by decide) (by decide) (by decide) (by decide) (Or.inl rfl)

/-- Counterexample to C1 as stated: the custom alphabet `"aba"` resolves, the
secret `"b"` and message `"b"` lie within it, yet the encode/decode round trip
returns `"a"`, not the original `"b"`.  Duplicate symbols collapse to their
first-occurrence index, so the claim fails without a distinctness assumption. -/
theorem decode_encode_roundtrip_duplicate_counterexample :
    resolvedUniverse ⟨some "custom", .undefined, .str "aba", none⟩ = some ['a', 'b', 'a'] ∧
    (∀ c ∈ ['b'], c ∈ ['a', 'b', 'a']) ∧
    (encode ['a', 'b', 'a'] false ['b'] ['b']).bind
      (fun ciphertext => decode ['a', 'b', 'a'] false ciphertext ['b']) = .ok ['a'] ∧
    (Except.ok ['a'] : Except String (List Char)) ≠ .ok ['b'] := by
  refine ⟨rfl, by decide, rfl, fun h => ?_⟩
  exact absurd (Except.ok.inj h) (by decide)

/-- C2: at every message position `i` whose symbol `m` is in the universe, with
key symbol `k = secret[i mod len(secret)]`, `x` the first-occurrence index of
`k`, `y` the first-occurrence index of `m` and `L` the universe length, encode
emits the universe symbol at index `(x + y) mod L` and decode emits the
universe symbol at index `(y - x + L) mod L` (written `(y + L - x) mod L`,
which is the same integer since `x < L`). -/
theorem per_position_shift (u : List Char) (strict : Bool) (message secret : List Char)
    (i : Nat)
    (hs : secret ≠ []) (hsu : ∀ c ∈ secret, c ∈ u)
    (hstrict : strict = true → ∀ c ∈ message, c ∈ u)
    (hi : i < message.length) (hm : message.getD i default ∈ u) :
    ∃ cipher plain,
      encode u strict message secret = .ok cipher ∧
      decode u strict message secret = .ok plain ∧
      cipher.getD i default = u.getD
        ((u.indexOf (secret.getD (i % secret.length) default) +
          u.indexOf (message.getD i default)) % u.length) default ∧
      plain.getD i default = u.getD
        ((u.indexOf (message.getD i default) + u.length -
          u.indexOf (secret.getD (i % secret.length) default)) % u.length) default := by
  have hmne : message ≠ [] := by
    intro h0
    rw [h0] at hi
    exact absurd hi (by simp)
  refine ⟨_, _, encryptOrDecrypt_ok u strict message secret .encrypt hs hsu hmne hstrict,
    encryptOrDecrypt_ok u strict message secret .decrypt hs hsu hmne hstrict, ?_, ?_⟩
  · rw [getD_map_range message.length i hi,
      transformChar_of_mem u secret .encrypt i hm hs hsu]
    rfl
  · rw [getD_map_range message.length i hi,
      transformChar_of_mem u secret .decrypt i hm hs hsu]
    rfl

/-- Witness for C2: over the lowercase alphabet with secret `"key"` and message
`"hello"`, position 0 obeys both shift formulas. -/
theorem per_position_shift_witness :
    ∃ cipher plain,
      encode lowercaseStr.toList false "hello".toList "key".toList = .ok cipher ∧
      decode lowercaseStr.toList false "hello".toList "key".toList = .ok plain ∧
      cipher.getD 0 default = lowercaseStr.toList.getD
        ((lowercaseStr.toList.indexOf
            ("key".toList.getD (0 % "key".toList.length) default) +
          lowercaseStr.toList.indexOf ("hello".toList.getD 0 default)) %
            lowercaseStr.toList.length) default ∧
      plain.getD 0 default = lowercaseStr.toList.getD
        ((lowercaseStr.toList.indexOf ("hello".toList.getD 0 default) +
          lowercaseStr.toList.length -
          lowercaseStr.toList.indexOf
            ("key".toList.getD (0 % "key".toList.length) default)) %
            lowercaseStr.toList.length) default :=
  per_position_shift lowercaseStr.toList false "hello".toList "key".toList 0
    (by decide) (by decide) (fun h => nomatch h) (by decide) (by decide)

/-- C3: with `strict = false`, every message symbol outside the universe is
copied unchanged to its own position, and every in-universe symbol is shifted
with the key symbol `secret[i mod len(secret)]`, keyed by the absolute message
index `i` — so pass-through characters still advance the keystream phase. -/
theorem passthrough_and_keystream (u : List Char) (message secret : List Char)
    (op : Operation) (hs : secret ≠ []) (hsu : ∀ c ∈ secret, c ∈ u)
    (hm : message ≠ []) :
    ∃ out, encryptOrDecrypt u false message secret op = .ok out ∧
      (∀ i, i < message.length → message.getD i default ∉ u →
        out.getD i default = message.getD i default) ∧
      (∀ i, i < message.length → message.getD i default ∈ u →
        out.getD i default = u.getD (shiftIndex u.length op
          (u.indexOf (secret.getD (i % secret.length) default))
          (u.indexOf (message.getD i default))) default) := by
  refine ⟨_, encryptOrDecrypt_ok u false message secret op hs hsu hm
    (fun h => nomatch h), ?_, ?_⟩
  · intro i hi hnot
    rw [getD_map_range message.length i hi]
    exact transformChar_of_not_mem u secret op i hnot
  · intro i hi hmem
    rw [getD_map_range message.length i hi]
    exact transformChar_of_mem u secret op i hmem hs hsu

/-- Witness for C3: encoding `"a b"` (with an out-of-universe space) over the
lowercase alphabet with secret `"k"`. -/
theorem passthrough_and_keystream_witness :
    ∃ out, encryptOrDecrypt lowercaseStr.toList false "a b".toList "k".toList
        .encrypt = .ok out ∧
      (∀ i, i < "a b".toList.length → "a b".toList.getD i default ∉ lowercaseStr.toList →
        out.getD i default = "a b".toList.getD i default) ∧
      (∀ i, i < "a b".toList.length → "a b".toList.getD i default ∈ lowercaseStr.toList →
        out.getD i default = lowercaseStr.toList.getD
          (shiftIndex lowercaseStr.toList.length .encrypt
            (lowercaseStr.toList.indexOf
              ("k".toList.getD (i % "k".toList.length) default))
            (lowercaseStr.toList.indexOf ("a b".toList.getD i default))) default) :=
  passthrough_and_keystream lowercaseStr.toList "a b".toList "k".toList .encrypt
    (by decide) (by decide) (by decide)

/-- C4: for either operation and either strict setting, a secret whose symbol
at position `i` is the first one absent from the universe makes the call fail
with the illegal-secret-character error naming that symbol; no transformed
output is produced. -/
theorem secret_validation_unconditional (u : List Char) (strict : Bool)
    (message secret : List Char) (op : Operation) (i : Nat)
    (hi : i < secret.length) (hc : secret.getD i default ∉ u)
    (hfirst : ∀ j, j < i → secret.getD j default ∈ u) :
    encryptOrDecrypt u strict message secret op =
      .error (illegalSecretMessage u (secret.getD i default)) := by
  have hne : secret ≠ [] := by
    intro h0
    rw [h0] at hi
    exact absurd hi (by simp)
  have hfind : secret.find? (fun c => jsIndexOf u c == -1) =
      some (secret.getD i default) :=
    find?_eq_getD_of_first secret i hi ((jsIndexOf_beq_neg_one_iff u _).mpr hc)
      (fun j hj => Bool.eq_false_iff.mpr
        (fun hbad => (jsIndexOf_beq_neg_one_iff u _).mp hbad (hfirst j hj)))
  unfold encryptOrDecrypt verifySecret
  rw [if_neg (by simp [List.isEmpty_iff, hne]), hfind]

/-- Witness for C4: the secret `"k3"` over the lowercase alphabet is rejected
with the message naming `'3'`, in strict and lenient mode alike. -/
theorem secret_validation_unconditional_witness :
    encryptOrDecrypt lowercaseStr.toList false "hi".toList "k3".toList .encrypt =
      .error (illegalSecretMessage lowercaseStr.toList ("k3".toList.getD 1 default)) :=
  secret_validation_unconditional lowercaseStr.toList false "hi".toList "k3".toList
    .encrypt 1 (by decide) (by decide) (by decide)

/-- C5: with `strict = true` and a valid secret, a message whose symbol at
position `i` is the first one absent from the universe makes the call fail with
the illegal-message-character error naming that symbol, before any output
character is produced. -/
theorem message_validation_strict (u : List Char) (message secret : List Char)
    (op : Operation) (i : Nat)
    (hs : secret ≠ []) (hsu : ∀ c ∈ secret, c ∈ u)
    (hi : i < message.length) (hc : message.getD i default ∉ u)
    (hfirst : ∀ j, j < i → message.getD j default ∈ u) :
    encryptOrDecrypt u true message secret op =
      .error (illegalMessageMessage u (message.getD i default)) := by
  have hne : message ≠ [] := by
    intro h0
    rw [h0] at hi
    exact absurd hi (by simp)
  have hfind : message.find? (fun c => jsIndexOf u c == -1) =
      some (message.getD i default) :=
    find?_eq_getD_of_first message i hi ((jsIndexOf_beq_neg_one_iff u _).mpr hc)
      (fun j hj => Bool.eq_false_iff.mpr
        (fun hbad => (jsIndexOf_beq_neg_one_iff u _).mp hbad (hfirst j hj)))
  unfold encryptOrDecrypt
  rw [verifySecret_ok u secret hs hsu]
  unfold verifyMessage
  rw [if_neg (by simp [List.isEmpty_iff, hne])]
  simp only [Bool.not_true, Bool.false_eq_true, if_false, hfind]

/-- Witness for C5: strict encoding of `"hello!"` over the lowercase alphabet
fails naming `'!'` (spec scenario 6). -/
theorem message_validation_strict_witness :
    encryptOrDecrypt lowercaseStr.toList true "hello!".toList "key".toList .encrypt =
      .error (illegalMessageMessage lowercaseStr.toList
        ("hello!".toList.getD 5 default)) :=
  message_validation_strict lowercaseStr.toList "hello!".toList "key".toList .encrypt 5
    (by decide) (by decide) (by decide) (by decide) (by decide)

/-- C9: whenever `encryptOrDecrypt` returns normally, the output has exactly
the length of the input message: one output character per message position. -/
theorem transform_preserves_length (u : List Char) (strict : Bool)
    (message secret out : List Char) (op : Operation)
    (h : encryptOrDecrypt u strict message secret op = .ok out) :
    out.length = message.length := by
  unfold encryptOrDecrypt at h
  split at h
  · exact absurd h (by simp)
  · split at h
    · exact absurd h (by simp)
    · injection h with h2
      rw [← h2]
      simp

/-- Witness for C9: encoding `"ab"` with secret `"k"` over the lowercase
alphabet yields `"kl"`, of the same length. -/
theorem transform_preserves_length_witness :
    (['k', 'l'] : List Char).length = (['a', 'b'] : List Char).length :=
  transform_preserves_length lowercaseStr.toList false ['a', 'b'] ['k'] ['k', 'l']
    .encrypt rfl

/-- C6 (code evaluation): constructing with `type = "custom"` and characters
absent, `null`, or the empty string fails with the invalid-character-type
error, not the missing-characters one: `characterTypes.custom` holds the falsy
`options.characters`, so the type-existence check at src/index.js line 27 fires
before the missing-characters check at line 32 can run. -/
theorem custom_missing_characters_hits_invalid_type :
    construct ⟨some "custom", .undefined, .undefined, none⟩ = .error invalidTypeMessage ∧
    construct ⟨some "custom", .undefined, .null, none⟩ = .error invalidTypeMessage ∧
    construct ⟨some "custom", .undefined, .str "", none⟩ = .error invalidTypeMessage ∧
    invalidTypeMessage ≠ "Characters must be specified when using custom character type." :=
  ⟨rfl, rfl, rfl, by decide⟩

/-- C7 (code evaluation): constructing with `type = "custom"` and
`characters = ["abc"]` (a non-empty array, not a string) succeeds — the array
is truthy and has non-zero length, so neither custom-characters check throws —
while the test suite expects the invalid-character-type error. -/
theorem custom_array_characters_accepted :
    construct ⟨some "custom", .undefined, .strArray ["abc"], none⟩ =
      .ok ⟨some "custom", .bool false, .strArray ["abc"], none⟩ := rfl

/-- C8 (code evaluation): an unrecognized type fails with the error that joins
the `characterTypes` keys in their insertion order — alphanumeric, numbers,
lowercase, uppercase, symbols, ascii, base64, custom — which differs from the
text and the enumeration order the test suite asserts. -/
theorem invalid_type_error_enumeration :
    construct ⟨some "invalid", .undefined, .undefined, none⟩ = .error invalidTypeMessage ∧
    invalidTypeMessage =
      "Invalid character type. Available options are: alphanumeric, numbers, lowercase, uppercase, symbols, ascii, base64, custom;" ∧
    invalidTypeMessage ≠
      "Invalid type provided. Available options are: numbers, custom, lowercase, uppercase, symbols, base64, alphanumeric, ascii;" :=
  ⟨rfl, rfl, by decide⟩

/-- The record a successful construction hands back: the caller's options with
`strict` coerced to a boolean and `type` defaulted to `"base64"` when it was
falsy. -/
lemma construct_ok_shape (o o2 : Options) (h : construct o = .ok o2) :
    o2 = if optStrTruthy o.type = true
      then { o with strict := JSValue.bool o.strict.truthy }
      else { o with strict := JSValue.bool o.strict.truthy, type := some "base64" } := by
  unfold construct at h
  by_cases ht : optStrTruthy o.type = true
  · simp only [ht, if_true] at h ⊢
    split at h
    · exact absurd h (by simp)
    · split at h
      · exact absurd h (by simp)
      · split at h
        · exact absurd h (by simp)
        · exact (Except.ok.inj h).symm
  · simp only [ht, if_false, Bool.false_eq_true] at h ⊢
    split at h
    · exact absurd h (by simp)
    · split at h
      · exact absurd h (by simp)
      · split at h
        · exact absurd h (by simp)
        · exact (Except.ok.inj h).symm

/-- C10: construction mutates the caller's options record: on success the
returned record carries `strict` overwritten by its boolean coercion, `type`
written to `"base64"` exactly when it was absent (kept when truthy), and no
change to `characters` or `secret`. -/
theorem construct_mutates_options (o o2 : Options) (h : construct o = .ok o2) :
    o2.strict = JSValue.bool o.strict.truthy ∧
    (o.type = none → o2.type = some "base64") ∧
    (optStrTruthy o.type = true → o2.type = o.type) ∧
    o2.characters = o.characters ∧
    o2.secret = o.secret := by
  rw [construct_ok_shape o o2 h]
  by_cases ht : optStrTruthy o.type = true
  · refine ⟨by simp [ht], fun habs => ?_, fun _ => by simp [ht], by simp [ht], by simp [ht]⟩
    rw [habs] at ht
    exact absurd ht (by simp [optStrTruthy])
  · exact ⟨by simp [ht], fun _ => by simp [ht], fun habs => absurd habs ht,
      by simp [ht], by simp [ht]⟩

/-- Witness for C10: constructing with an empty options record coerces `strict`
to `false`, defaults `type` to `"base64"`, and leaves the other fields. -/
theorem construct_mutates_options_witness :
    (Options.mk (some "base64") (JSValue.bool false) JSValue.undefined none).strict =
      JSValue.bool (JSValue.truthy JSValue.undefined) ∧
    ((none : Option String) = none →
      (Options.mk (some "base64") (JSValue.bool false) JSValue.undefined none).type =
        some "base64") ∧
    (optStrTruthy none = true →
      (Options.mk (some "base64") (JSValue.bool false) JSValue.undefined none).type = none) ∧
    (Options.mk (some "base64") (JSValue.bool false) JSValue.undefined none).characters =
      JSValue.undefined ∧
    (Options.mk (some "base64") (JSValue.bool false) JSValue.undefined none).secret = none :=
  construct_mutates_options ⟨none, JSValue.undefined, JSValue.undefined, none⟩
    ⟨some "base64", JSValue.bool false, JSValue.undefined, none⟩ rfl

end Vigenere
